import Mathlib

/-!
Verification of the offline-map plugin (download manager, protocol resolver,
byte-range source, map loading) of the maplibre-offline-pmtiles repository.

The JavaScript source is embedded shallowly:

* `downloadMap` models `OfflinePlugin.downloadMap` (src/unnamed/part_001,
  lines 118-220).  Network and storage effects are parameters: the initial
  `fetch` response, a `server` function giving the response to each
  `Range: bytes=start-` request, the outcome of `saveMapFile`, and an
  abstracted style-processing step.  The `while` loop is modelled with fuel
  (`none` = the loop did not finish within the fuel).
* `protocolHandler` models the handler installed by
  `OfflinePlugin.registerProtocol` (lines 40-112).
* `getBytes` models `BlobSource.getBytes` (src/src/pmtiles_adapter.js).
* `loadMap` and `cleanup` model `OfflinePlugin.loadMap` / `_cleanup`
  (lines 277-349) together with the layer helpers (lines 351-445).

Bytes are `Nat`, blobs are `List Nat`.  JavaScript numbers that the claims
touch are modelled exactly: the progress percentage
`(receivedLength / totalSize * 100).toFixed(1)` is modelled as the exact
rounded value in tenths of a percent (`progressTenths`); this idealises
float64 arithmetic, which is faithful away from ties of the rounding.
-/

namespace OfflinePmtiles

/-- A JavaScript error value: its `name` (used by the quota check
`e.name === 'QuotaExceededError'`) and its `message`. -/
structure JsError where
  name : String
  msg : String
deriving DecidableEq, Repr

/-- A call to the `report` helper of `downloadMap` (line 120).  Only the
status code, the optional progress percentage (in tenths of a percent) and
the message of the two failure reports are retained; the purely decorative
progress-free messages are dropped. -/
inductive Report where
  | start : Report
  | progress : Option Nat → Report
  | complete : Report
  | error : String → Report
  | errorQuota : Report
deriving DecidableEq, Repr

/-- Exact model of `(num / den * 100).toFixed(1)` (lines 159 and 170): the
value in tenths of a percent, rounded to nearest (half away from zero).
`(num * 2000 + den) / (2 * den)` is `⌊num / den * 1000 + 1/2⌋` in exact
arithmetic. -/
def progressTenths (num den : Nat) : Nat :=
  (num * 2000 + den) / (2 * den)

/-- An HTTP response as `downloadMap` consumes it: `ok`, `status`, the
parsed `Content-Range` header (`none` = header absent, `some none` = header
present but its total is not a number, `some (some t)` = total `t`), and the
body bytes delivered by `response.blob()`. -/
structure FetchResponse where
  ok : Bool
  status : Nat
  contentRange : Option (Option Nat)
  body : List Nat
deriving DecidableEq, Repr

/-- The `while (receivedLength < totalSize)` loop of `downloadMap`
(lines 162-172).  `server s` is the response to the range request starting
at byte `s`.  Returns the fetched chunks, the successive values of
`receivedLength` after each chunk, and the error thrown by a failed chunk
request, if any; `none` means the fuel ran out before the loop finished. -/
def chunkLoop (server : Nat → FetchResponse) (totalSize : Nat) :
    Nat → Nat → Option (List (List Nat) × List Nat × Option JsError)
  | 0, received =>
    if received < totalSize then none else some ([], [], none)
  | fuel + 1, received =>
    if received < totalSize then
      let resp := server received
      if resp.ok then
        let chunk := resp.body
        let r' := received + chunk.length
        match chunkLoop server totalSize fuel r' with
        | none => none
        | some (chunks, recs, e) => some (chunk :: chunks, r' :: recs, e)
      else
        some ([], [], some ⟨"Error", "Chunk download failed: " ++ toString resp.status⟩)
    else some ([], [], none)

/-- Lines 136-178 of `downloadMap`: from the initial response to the final
blob.  Returns the progress reports emitted, the successive values of
`receivedLength` (empty unless the chunked branch ran), and either the
assembled blob or the thrown error. -/
def fetchPhase (resp : FetchResponse) (server : Nat → FetchResponse) (fuel : Nat) :
    Option (List Report × List Nat × Except JsError (List Nat)) :=
  if !resp.ok then
    some ([], [], .error ⟨"Error", "Download failed with status " ++ toString resp.status⟩)
  else if resp.status = 200 then
    some ([.progress none], [], .ok resp.body)
  else if resp.status = 206 then
    match resp.contentRange with
    | none => some ([], [], .ok resp.body)
    | some none =>
      some ([], [], .error ⟨"Error", "Could not determine file size from Content-Range"⟩)
    | some (some totalSize) =>
      match chunkLoop server totalSize fuel resp.body.length with
      | none => none
      | some (chunks, recs, e) =>
        let trace := resp.body.length :: recs
        let reps := Report.progress none ::
          trace.map (fun n => Report.progress (some (progressTenths n totalSize)))
        match e with
        | none => some (reps ++ [.progress none], trace, .ok ((resp.body :: chunks).flatten))
        | some err => some (reps, trace, .error err)
  else
    some ([], [], .ok resp.body)

instance : DecidableEq (Except JsError Unit) := fun a b =>
  match a, b with
  | .ok (), .ok () => isTrue rfl
  | .error e, .error f =>
    if h : e = f then isTrue (by rw [h]) else isFalse (fun hh => h (Except.error.inj hh))
  | .ok (), .error _ => isFalse (fun h => Except.noConfusion h)
  | .error _, .ok () => isFalse (fun h => Except.noConfusion h)

/-- The observable outcome of one `downloadMap` call: the reports emitted,
the successive values of `receivedLength` (empty unless the chunked branch
ran), the blob handed to `saveMapFile` when that save succeeded, and whether
the call returned normally or re-raised an error. -/
structure DownloadResult where
  reports : List Report
  trace : List Nat
  persisted : Option (List Nat)
  outcome : Except JsError Unit
deriving DecidableEq

/-- The catch clause, lines 212-218: quota exhaustion maps to `ERROR_QUOTA`,
everything else to `ERROR` with the underlying message. -/
def errReport (e : JsError) : Report :=
  if e.name = "QuotaExceededError" then .errorQuota
  else .error ("Error: " ++ e.msg)

/-- `OfflinePlugin.downloadMap` (lines 118-220).  `url` is checked for
falsiness (line 125); `resp` is the response of the initial `fetch`;
`server` answers the range requests of the chunk loop; `save b` is the
outcome of `saveMapFile(name, b)`; `styleStep` abstracts the optional style
processing of lines 184-208 (`none` = no `styleSource` supplied, otherwise
its success or the error it throws).  The result is `none` when the chunk
loop exceeds the fuel. -/
def downloadMap (url : String) (resp : FetchResponse) (server : Nat → FetchResponse)
    (save : List Nat → Except JsError Unit) (styleStep : Option (Except JsError Unit))
    (fuel : Nat) : Option DownloadResult :=
  if url = "" then
    some ⟨[.error "Error: No URL provided"], [], none, .ok ()⟩
  else
    match fetchPhase resp server fuel with
    | none => none
    | some (freps, trace, .error e) =>
      some ⟨Report.start :: freps ++ [errReport e], trace, none, .error e⟩
    | some (freps, trace, .ok blob) =>
      match save blob with
      | .error e =>
        some ⟨Report.start :: freps ++ [.progress none, errReport e], trace, none, .error e⟩
      | .ok _ =>
        match styleStep with
        | none =>
          some ⟨Report.start :: freps ++ [.progress none, .complete], trace, some blob, .ok ()⟩
        | some (.ok _) =>
          some ⟨Report.start :: freps ++ [.progress none, .progress none, .complete],
            trace, some blob, .ok ()⟩
        | some (.error e) =>
          some ⟨Report.start :: freps ++ [.progress none, .progress none, errReport e],
            trace, some blob, .error e⟩

/-- The percentage carried by a report, if any. -/
def reportPct : Report → Option Nat
  | .progress (some p) => some p
  | _ => none

/-- The sequence of progress percentages (in tenths) among a report list. -/
def pcts (reps : List Report) : List Nat :=
  reps.filterMap reportPct

/-- Whether a report is one of the two failure reports. -/
def isErrReport : Report → Bool
  | .error _ => true
  | .errorQuota => true
  | _ => false

/-! ## Protocol resolver (registerProtocol, lines 40-112) -/

/-- A stored archive blob. -/
abbrev Blob := List Nat

/-- The PMTiles header fields the handler reads (`p.getHeader()`).
Longitudes and latitudes are exact rationals (float64 idealised); the JS
falsiness tests `!bounds[0]`, `header.minZoom || 0`, `header.maxZoom || 14`
are equality with `0` here. -/
structure Header where
  minZoom : Int
  maxZoom : Int
  minLon : ℚ
  minLat : ℚ
  maxLon : ℚ
  maxLat : ℚ
  tileType : Nat
deriving DecidableEq, Repr

/-- The archive metadata fields the plugin reads (`p.getMetadata()`).
`bounds` is the result of `metadata.bounds.split(',').map(Number)` — `none`
models an absent or empty (falsy) `bounds` string.  `minzoom` / `maxzoom`
are modelled as optional numbers (`metadata.minzoom` truthiness is
`some v` with `v ≠ 0`); `parseInt` of an absent field gives NaN, modelled
as `none` in the resolved zoom.  `vector_layers` is the list of layer ids
(`none` = field absent or falsy). -/
structure Metadata where
  bounds : Option (List ℚ)
  minzoom : Option Int
  maxzoom : Option Int
  vector_layers : Option (List String)
deriving DecidableEq, Repr

/-- Lines 64-75: the bounds / zoom resolution of a metadata request.
Returns `(minzoom, maxzoom, bounds)` of the emitted tile-source descriptor;
`none` in a zoom slot models NaN (from `parseInt` of an absent field). -/
def resolveZoomBounds (header : Header) (metadata : Option Metadata) :
    Option Int × Option Int × List ℚ :=
  let minZoom : Int := header.minZoom
  let maxZoom : Int := if header.maxZoom = 0 then 14 else header.maxZoom
  let bounds : List ℚ := [header.minLon, header.minLat, header.maxLon, header.maxLat]
  match metadata with
  | some md =>
    if header.minLon = 0 ∧ header.maxLon = 0 ∧ md.bounds.isSome then
      match md.bounds with
      | some b => if b.length = 4 then (some minZoom, some maxZoom, b)
                  else (some minZoom, some maxZoom, bounds)
      | none => (some minZoom, some maxZoom, bounds)
    else if (md.minzoom.getD 0) ≠ 0 then
      (md.minzoom, md.maxzoom, bounds)
    else (some minZoom, some maxZoom, bounds)
  | none => (some minZoom, some maxZoom, bounds)

/-- JavaScript `url.split(sep)` for a one-character separator, on the
character list of the string. -/
def splitCharAux (sep : Char) : List Char → List Char → List String
  | [], acc => [String.mk acc.reverse]
  | c :: cs, acc =>
    if c = sep then String.mk acc.reverse :: splitCharAux sep cs []
    else splitCharAux sep cs (c :: acc)

/-- JavaScript `s.split('/')` (line 42); like JS, splitting the empty
string yields `[""]`. -/
def jsSplit (s : String) (sep : Char) : List String :=
  splitCharAux sep s.data []

/-- JavaScript `parseInt` on the z/x/y path components, restricted to
canonical integer numerals; `none` models NaN. -/
def parseIntJs (s : String) : Option Int :=
  s.toInt?

/-- A value returned (without error) by the protocol handler: either the
tile-source descriptor of a metadata request (lines 83-91; the computed
`mimeType` of lines 77-81 is not part of the returned object and is
omitted), or the tile bytes / explicit empty answer of a tile request
(lines 102-106). -/
inductive ProtocolValue where
  | metaDescriptor : Option Int → Option Int → List ℚ → ProtocolValue
  | tileData : Option (List Nat) → ProtocolValue
deriving DecidableEq, Repr

/-- How one handler invocation ends: a returned value, a thrown error, or
the implicit `undefined` return when no branch matches. -/
inductive HandlerResult where
  | ok : ProtocolValue → HandlerResult
  | err : String → HandlerResult
  | noResult : HandlerResult
deriving DecidableEq, Repr

/-- Whether the handler threw. -/
def isHandlerErr : HandlerResult → Bool
  | .err _ => true
  | _ => false

/-- The handler registered by `OfflinePlugin.registerProtocol`
(lines 40-112).  `url` is `params.url` with the scheme already stripped;
`aborted` is the (constant) state of the cancellation signal; `storage`
models `getMapFile`; `getHeader`, `getMetadata` and `getZxy` model the
PMTiles reader capability over the stored blob. -/
def protocolHandler (url : String) (aborted : Bool) (storage : String → Option Blob)
    (getHeader : Blob → Header) (getMetadata : Blob → Option Metadata)
    (getZxy : Blob → Option Int → Option Int → Option Int → Option (List Nat)) :
    HandlerResult :=
  let parts := jsSplit url '/'
  let name := parts.headD ""
  if aborted then .err "Aborted"
  else
    match storage name with
    | none => .err ("Map " ++ name ++ " not found in storage")
    | some blob =>
      if aborted then .err "Aborted"
      else if parts.length = 1 then
        let header := getHeader blob
        let metadata := getMetadata blob
        if aborted then .err "Aborted"
        else
          let r := resolveZoomBounds header metadata
          .ok (.metaDescriptor r.1 r.2.1 r.2.2)
      else if parts.length = 4 then
        let z := parseIntJs (parts.getD 1 "")
        let x := parseIntJs (parts.getD 2 "")
        let y := parseIntJs (parts.getD 3 "")
        if aborted then .err "Aborted"
        else
          match getZxy blob z x y with
          | some data => .ok (.tileData (some data))
          | none => .ok (.tileData none)
      else .noResult

/-! ## ByteRangeSource (BlobSource, src/src/pmtiles_adapter.js) -/

/-- JavaScript `Blob.prototype.slice(start, end)` for non-negative
arguments: the bytes in `[start, min(end, size))`; out-of-range ends are
silently clamped. -/
def blobSlice (blob : List Nat) (start finish : Nat) : List Nat :=
  (blob.take finish).drop start

/-- `BlobSource.getBytes(offset, length)` (pmtiles_adapter.js lines 12-16):
`this.blob.slice(offset, offset + length)` read back as bytes. -/
def getBytes (blob : List Nat) (offset length : Nat) : List Nat :=
  blobSlice blob offset (offset + length)

/-! ## Map loading (loadMap / _cleanup and the layer helpers) -/

/-- A rendering-engine layer as this plugin manipulates it: its id, its
`type` field and its optional `source` binding.  Paint/layout properties
play no role in the modelled logic and are omitted. -/
structure MapLayer where
  id : String
  typ : String
  source : Option String
deriving DecidableEq, Repr

/-- The rendering-engine state the plugin observes: the ordered layer list
and the set of source ids. -/
structure MapState where
  layers : List MapLayer
  sources : List String
deriving DecidableEq, Repr

/-- JavaScript `String.prototype.startsWith` (lines 264 and 339). -/
def strStartsWith (s p : String) : Bool :=
  p.data.isPrefixOf s.data

/-- `map.getLayer(id)` truthiness. -/
def getLayerB (m : MapState) (lid : String) : Bool :=
  m.layers.any (fun l => l.id = lid)

/-- `map.getSource(id)` truthiness. -/
def getSourceB (m : MapState) (sid : String) : Bool :=
  m.sources.any (fun s => s = sid)

/-- Insertion of a layer before the layer with id `bid`; appends when no
layer has that id (maplibre would reject an unknown `beforeId`, but the
only call site passes the id of the first layer). -/
def insertBeforeId (layers : List MapLayer) (bid : String) (l : MapLayer) : List MapLayer :=
  match layers with
  | [] => [l]
  | x :: xs => if x.id = bid then l :: x :: xs else x :: insertBeforeId xs bid l

/-- `map.addLayer(layer, before?)`.  Maplibre throws when a layer with the
same id exists; every call site of the plugin either guards the call with
`map.getLayer` or wraps it in try/catch or runs right after `_cleanup`, so
the collision case is modelled as a no-op. -/
def addLayerAt (m : MapState) (l : MapLayer) (before : Option String) : MapState :=
  if getLayerB m l.id then m
  else
    match before with
    | none => { m with layers := m.layers ++ [l] }
    | some bid => { m with layers := insertBeforeId m.layers bid l }

/-- `map.addSource(id, …)`; the duplicate case is a no-op for the same
reason as `addLayerAt`. -/
def addSource (m : MapState) (sid : String) : MapState :=
  if getSourceB m sid then m else { m with sources := m.sources ++ [sid] }

/-- `OfflinePlugin._cleanup` (lines 334-349): remove every layer whose id
starts with `name ++ "-"` (iterating a snapshot of the style), then remove
the source `name ++ "-source"` if present. -/
def cleanup (m : MapState) (name : String) : MapState :=
  { layers := m.layers.filter (fun l => !(strStartsWith l.id (name ++ "-"))),
    sources := m.sources.filter (fun s => decide ¬(s = name ++ "-source")) }

/-- `_addRasterLayer` (lines 351-360). -/
def addRasterLayer (m : MapState) (sourceId name : String) : MapState :=
  addLayerAt m ⟨name ++ "-raster", "raster", some sourceId⟩ none

/-- The per-layer transformation of `_addCustomStyleLayers` (lines 363-370):
prefix background layers, rebind and prefix sourced layers, leave the rest
untouched.  An empty-string `source` is falsy in JS. -/
def customTransform (sourceId name : String) (l : MapLayer) : MapLayer :=
  if l.typ = "background" then { l with id := name ++ "-" ++ l.id }
  else if (l.source.getD "") ≠ "" then
    { l with source := some sourceId, id := name ++ "-" ++ l.id }
  else l

/-- `_addCustomStyleLayers` (lines 361-380): transform each stored style
layer and add it unless a layer with that id already exists (the
try/catch around `addLayer` swallows failures). -/
def addCustomStyleLayers (m : MapState) (styleLayers : List MapLayer)
    (sourceId name : String) : MapState :=
  styleLayers.foldl (fun acc l => addLayerAt acc (customTransform sourceId name l) none) m

/-- The candidate ids of the default polygon layer (line 395). -/
def polyIds : List String := ["earth", "landuse", "water", "buildings", "land"]

/-- The candidate ids of the default line layer (line 410). -/
def lineIds : List String := ["roads", "transit", "boundaries", "transportation"]

/-- Lines 384-390 of `_addVectorLayers`: add a default background layer at
the bottom (before the current first layer) unless one exists. -/
def bgStep (m : MapState) : MapState :=
  if getLayerB m "background" then m
  else addLayerAt m ⟨"background", "background", none⟩ (m.layers.head?.map (fun l => l.id))

/-- Lines 421-435 of `_addVectorLayers`: one iteration of the debug-layer
loop — skip when the debug layer already exists or the id was used for the
fill/line layer, otherwise add it. -/
def debugStep (polyL lineL : Option String) (sourceId name : String)
    (acc : MapState) (i : String) : MapState :=
  if getLayerB acc (name ++ "-debug-" ++ i) then acc
  else if polyL = some i ∨ lineL = some i then acc
  else addLayerAt acc ⟨name ++ "-debug-" ++ i, "line", some sourceId⟩ none

/-- `_addVectorLayers` (lines 382-445).  `vls` is the list of
`metadata.vector_layers` ids (empty when metadata or the field is absent).
The colour expressions are cosmetic and omitted. -/
def addVectorLayers (m : MapState) (vls : List String) (sourceId name : String) : MapState :=
  let m₁ := bgStep m
  if 0 < vls.length then
    let polyL := vls.find? (fun i => polyIds.contains i)
    let m₂ :=
      match polyL with
      | some _ => addLayerAt m₁ ⟨name ++ "-fill", "fill", some sourceId⟩ none
      | none => m₁
    let lineL := vls.find? (fun i => lineIds.contains i)
    let m₃ :=
      match lineL with
      | some _ => addLayerAt m₂ ⟨name ++ "-line", "line", some sourceId⟩ none
      | none => m₂
    vls.foldl (debugStep polyL lineL sourceId name) m₃
  else
    addLayerAt m₁ ⟨name ++ "-fallback-fill", "fill", some sourceId⟩ none

/-- The `vector_layers` ids a metadata value contributes (line 392). -/
def vectorIds (md : Option Metadata) : List String :=
  match md with
  | some m => m.vector_layers.getD []
  | none => []

/-- `OfflinePlugin.loadMap` (lines 277-332) restricted to its effect on the
rendering-engine state.  `blob?` is the `getMapFile` result (absence makes
the call return without touching the map); `storedStyle` is the `getMapStyle`
result — `some (some ls)` a style with a `layers` field (the
`storedStyle && storedStyle.layers` test; an empty array is truthy),
`some none` a style without one, `none` no stored style. -/
def loadMap (m : MapState) (name : String) (blob? : Option Blob)
    (getHeader : Blob → Header) (getMetadata : Blob → Option Metadata)
    (storedStyle : Option (Option (List MapLayer))) : MapState :=
  match blob? with
  | none => m
  | some blob =>
    let m₁ := cleanup m name
    let sourceId := name ++ "-source"
    let m₂ := addSource m₁ sourceId
    let isVector := (getHeader blob).tileType = 1
    if isVector then
      match storedStyle with
      | some (some ls) => addCustomStyleLayers m₂ ls sourceId name
      | _ => addVectorLayers m₂ (vectorIds (getMetadata blob)) sourceId name
    else addRasterLayer m₂ sourceId name

/-- The layers of a map state whose id carries the `name ++ "-"` marker of
a given archive. -/
def prefLayers (m : MapState) (name : String) : List MapLayer :=
  m.layers.filter (fun l => strStartsWith l.id (name ++ "-"))

/-- The layer ids of a map state, in order. -/
def layerIds (m : MapState) : List String :=
  m.layers.map (fun l => l.id)

/-! ## Lemmas about the chunk loop -/

theorem chunkLoop_complete (source : List Nat) (server : Nat → FetchResponse)
    (hserver : ∀ s, s < source.length →
      (server s).ok = true ∧ (server s).body ≠ [] ∧ (server s).body <+: source.drop s) :
    ∀ fuel received, received ≤ source.length → source.length - received ≤ fuel →
      ∃ chunks recs,
        chunkLoop server source.length fuel received = some (chunks, recs, none) ∧
        chunks.flatten = source.drop received := by
  intro fuel
  induction fuel with
  | zero =>
    intro received hle hfuel
    have hnr : ¬ received < source.length := by omega
    have heq : received = source.length := by omega
    exact ⟨[], [], by simp [chunkLoop, hnr], by simp [heq, List.drop_length]⟩
  | succ fuel ih =>
    intro received hle hfuel
    by_cases h : received < source.length
    · obtain ⟨hok, hne, hpref⟩ := hserver received h
      have hlen : (server received).body.length ≤ source.length - received := by
        have h1 := hpref.length_le
        rwa [List.length_drop] at h1
      have hpos : 0 < (server received).body.length := List.length_pos.mpr hne
      have h1 : received + (server received).body.length ≤ source.length := by omega
      have h2 : source.length - (received + (server received).body.length) ≤ fuel := by omega
      obtain ⟨chunks, recs, heq, hflat⟩ := ih (received + (server received).body.length) h1 h2
      refine ⟨(server received).body :: chunks,
        (received + (server received).body.length) :: recs, ?_, ?_⟩
      · simp [chunkLoop, h, hok, heq]
      · obtain ⟨t, ht⟩ := hpref
        have hdrop : source.drop (received + (server received).body.length) = t := by
          have h3 : source.drop received = (server received).body ++ t := ht.symm
          have h4 : (source.drop received).drop (server received).body.length = t := by
            rw [h3]; exact List.drop_left _ _
          rw [← h4, List.drop_drop, Nat.add_comm]
        rw [List.flatten_cons, hflat, hdrop, ht]
    · have heq2 : received = source.length := by omega
      exact ⟨[], [], by simp [chunkLoop, h], by simp [heq2, List.drop_length]⟩

theorem chunkLoop_chain (server : Nat → FetchResponse) (total : Nat) :
    ∀ fuel received chunks recs e,
      chunkLoop server total fuel received = some (chunks, recs, e) →
      List.Chain' (· ≤ ·) (received :: recs) := by
  intro fuel
  induction fuel with
  | zero =>
    intro received chunks recs e h
    by_cases hr : received < total
    · simp [chunkLoop, hr] at h
    · simp [chunkLoop, hr] at h
      rw [h.2.1]
      exact List.chain'_singleton received
  | succ fuel ih =>
    intro received chunks recs e h
    by_cases hr : received < total
    · by_cases hok : (server received).ok
      · simp only [chunkLoop, if_pos hr, hok, if_true] at h
        cases hcl : chunkLoop server total fuel (received + (server received).body.length) with
        | none => rw [hcl] at h; exact absurd h (by simp)
        | some v =>
          obtain ⟨chunks', recs', e'⟩ := v
          rw [hcl] at h
          simp at h
          obtain ⟨-, h2, -⟩ := h
          rw [← h2]
          exact List.chain'_cons.mpr ⟨Nat.le_add_right _ _, ih _ _ _ _ hcl⟩
      · simp only [chunkLoop, if_pos hr, hok] at h
        simp at h
        rw [h.2.1]
        exact List.chain'_singleton received
    · simp [chunkLoop, hr] at h
      rw [h.2.1]
      exact List.chain'_singleton received

theorem chunkLoop_le (server : Nat → FetchResponse) (total : Nat)
    (hs : ∀ s, s < total → (server s).body.length ≤ total - s) :
    ∀ fuel received, received ≤ total →
      ∀ chunks recs e, chunkLoop server total fuel received = some (chunks, recs, e) →
        ∀ n ∈ recs, n ≤ total := by
  intro fuel
  induction fuel with
  | zero =>
    intro received hle chunks recs e h
    by_cases hr : received < total
    · simp [chunkLoop, hr] at h
    · simp [chunkLoop, hr] at h
      rw [h.2.1]
      intro n hn
      exact absurd hn (List.not_mem_nil n)
  | succ fuel ih =>
    intro received hle chunks recs e h
    by_cases hr : received < total
    · by_cases hok : (server received).ok
      · simp only [chunkLoop, if_pos hr, hok, if_true] at h
        cases hcl : chunkLoop server total fuel (received + (server received).body.length) with
        | none => rw [hcl] at h; exact absurd h (by simp)
        | some v =>
          obtain ⟨chunks', recs', e'⟩ := v
          rw [hcl] at h
          simp at h
          obtain ⟨-, h2, -⟩ := h
          have hnext : received + (server received).body.length ≤ total := by
            have := hs received hr
            omega
          have := ih _ hnext _ _ _ hcl
          rw [← h2]
          intro n hn
          rcases List.mem_cons.mp hn with h3 | h3
          · omega
          · exact this n h3
      · simp only [chunkLoop, if_pos hr, hok] at h
        simp at h
        rw [h.2.1]
        intro n hn
        exact absurd hn (List.not_mem_nil n)
    · simp [chunkLoop, hr] at h
      rw [h.2.1]
      intro n hn
      exact absurd hn (List.not_mem_nil n)

/-! ## Lemmas about reports and the fetch phase -/

theorem pcts_append (l l' : List Report) : pcts (l ++ l') = pcts l ++ pcts l' := by
  simp [pcts]

theorem pcts_cons_none (l : List Report) :
    pcts (Report.progress none :: l) = pcts l := by
  simp [pcts, List.filterMap_cons, reportPct]

theorem pcts_cons_some (p : Nat) (l : List Report) :
    pcts (Report.progress (some p) :: l) = p :: pcts l := by
  simp [pcts, List.filterMap_cons, reportPct]

theorem pcts_map_pct (f : Nat → Nat) (tr : List Nat) :
    pcts (tr.map fun n => Report.progress (some (f n))) = tr.map f := by
  induction tr with
  | nil => rfl
  | cons a t ih =>
    simp only [List.map_cons, pcts, List.filterMap_cons, reportPct]
    exact congrArg (f a :: ·) ih

theorem fetchPhase_spec (resp : FetchResponse) (server : Nat → FetchResponse) (fuel : Nat)
    (freps : List Report) (trace : List Nat) (out : Except JsError (List Nat))
    (h : fetchPhase resp server fuel = some (freps, trace, out)) :
    (∀ r ∈ freps, ∃ p, r = Report.progress p) ∧
    List.Chain' (· ≤ ·) trace ∧
    (∀ total, resp.contentRange = some (some total) →
      pcts freps = trace.map (fun n => progressTenths n total)) ∧
    (∀ total, resp.contentRange = some (some total) → resp.body.length ≤ total →
      (∀ s, s < total → (server s).body.length ≤ total - s) →
      ∀ n ∈ trace, n ≤ total) := by
  by_cases hok : resp.ok
  case neg =>
    simp [fetchPhase, hok] at h
    obtain ⟨h1, h2, -⟩ := h
    subst h1; subst h2
    simp [pcts]
  case pos =>
    by_cases h200 : resp.status = 200
    · simp [fetchPhase, hok, h200] at h
      obtain ⟨h1, h2, -⟩ := h
      subst h1; subst h2
      refine ⟨by simp, by simp, by simp [pcts, List.filterMap_cons, reportPct], by simp⟩
    · by_cases h206 : resp.status = 206
      · cases hcr : resp.contentRange with
        | none =>
          simp [fetchPhase, hok, h200, h206, hcr] at h
          obtain ⟨h1, h2, -⟩ := h
          subst h1; subst h2
          simp [pcts]
        | some cr =>
          cases cr with
          | none =>
            simp [fetchPhase, hok, h200, h206, hcr] at h
            obtain ⟨h1, h2, -⟩ := h
            subst h1; subst h2
            simp [pcts]
          | some totalSize =>
            cases hcl : chunkLoop server totalSize fuel resp.body.length with
            | none =>
              rw [fetchPhase] at h
              rw [hcr] at h
              simp [hok, h200, h206, hcl] at h
            | some v =>
              obtain ⟨chunks, recs, e⟩ := v
              rw [fetchPhase] at h
              rw [hcr] at h
              have hchain := chunkLoop_chain server totalSize fuel resp.body.length
                chunks recs e hcl
              have hle := fun (hb : resp.body.length ≤ totalSize)
                  (hsv : ∀ s, s < totalSize → (server s).body.length ≤ totalSize - s) =>
                chunkLoop_le server totalSize hsv fuel resp.body.length hb chunks recs e hcl
              cases e with
              | none =>
                simp [hok, h200, h206, hcl] at h
                obtain ⟨h1, h2, -⟩ := h
                subst h1; subst h2
                refine ⟨?_, hchain, ?_, ?_⟩
                · intro r hr
                  rcases List.mem_cons.mp hr with rfl | hr
                  · exact ⟨none, rfl⟩
                  rcases List.mem_cons.mp hr with rfl | hr
                  · exact ⟨_, rfl⟩
                  rcases List.mem_append.mp hr with hr | hr
                  · obtain ⟨n, -, rfl⟩ := List.mem_map.mp hr
                    exact ⟨_, rfl⟩
                  · rcases List.mem_cons.mp hr with rfl | hr
                    · exact ⟨none, rfl⟩
                    · exact absurd hr (List.not_mem_nil r)
                · intro total hcr2
                  obtain rfl : totalSize = total := by simpa using hcr2
                  rw [pcts_cons_none, pcts_cons_some, pcts_append, pcts_map_pct]
                  simp [pcts, List.filterMap_cons, reportPct]
                · intro total hcr2 hb hsv n hn
                  obtain rfl : totalSize = total := by simpa using hcr2
                  rcases List.mem_cons.mp hn with rfl | hn
                  · exact hb
                  · exact hle hb hsv n hn
              | some err =>
                simp [hok, h200, h206, hcl] at h
                obtain ⟨h1, h2, -⟩ := h
                subst h1; subst h2
                refine ⟨?_, hchain, ?_, ?_⟩
                · intro r hr
                  rcases List.mem_cons.mp hr with rfl | hr
                  · exact ⟨none, rfl⟩
                  rcases List.mem_cons.mp hr with rfl | hr
                  · exact ⟨_, rfl⟩
                  obtain ⟨n, -, rfl⟩ := List.mem_map.mp hr
                  exact ⟨_, rfl⟩
                · intro total hcr2
                  obtain rfl : totalSize = total := by simpa using hcr2
                  rw [pcts_cons_none, pcts_cons_some, pcts_map_pct]
                  simp
                · intro total hcr2 hb hsv n hn
                  obtain rfl : totalSize = total := by simpa using hcr2
                  rcases List.mem_cons.mp hn with rfl | hn
                  · exact hb
                  · exact hle hb hsv n hn
      · simp [fetchPhase, hok, h200, h206] at h
        obtain ⟨h1, h2, -⟩ := h
        subst h1; subst h2
        simp [pcts]

theorem downloadMap_spec (url : String) (resp : FetchResponse) (server : Nat → FetchResponse)
    (save : List Nat → Except JsError Unit) (styleStep : Option (Except JsError Unit))
    (fuel : Nat) (r : DownloadResult)
    (h : downloadMap url resp server save styleStep fuel = some r) :
    (url = "" ∧ r = ⟨[.error "Error: No URL provided"], [], none, .ok ()⟩) ∨
    (∃ freps trace out tail,
      fetchPhase resp server fuel = some (freps, trace, out) ∧
      r.trace = trace ∧
      r.reports = Report.start :: freps ++ tail ∧
      ((∃ e, r.outcome = Except.error e ∧
         (tail = [errReport e] ∨ tail = [Report.progress none, errReport e] ∨
          tail = [Report.progress none, Report.progress none, errReport e])) ∨
       (r.outcome = Except.ok () ∧
         (tail = [Report.progress none, Report.complete] ∨
          tail = [Report.progress none, Report.progress none, Report.complete])))) := by
  by_cases hurl : url = ""
  · left
    refine ⟨hurl, ?_⟩
    simp [downloadMap, hurl] at h
    exact h.symm
  · right
    rw [downloadMap, if_neg hurl] at h
    cases hfp : fetchPhase resp server fuel with
    | none => rw [hfp] at h; exact absurd h (by simp)
    | some v =>
      obtain ⟨freps, trace, out⟩ := v
      rw [hfp] at h
      cases out with
      | error e =>
        simp at h
        subst h
        exact ⟨freps, trace, .error e, [errReport e], rfl, rfl, rfl,
          Or.inl ⟨e, rfl, Or.inl rfl⟩⟩
      | ok blob =>
        cases hsv : save blob with
        | error e =>
          simp [hsv] at h
          subst h
          exact ⟨freps, trace, .ok blob, [.progress none, errReport e], rfl, rfl, rfl,
            Or.inl ⟨e, rfl, Or.inr (Or.inl rfl)⟩⟩
        | ok u =>
          cases styleStep with
          | none =>
            simp [hsv] at h
            subst h
            exact ⟨freps, trace, .ok blob, [.progress none, .complete], rfl, rfl, rfl,
              Or.inr ⟨rfl, Or.inl rfl⟩⟩
          | some st =>
            cases st with
            | ok u' =>
              simp [hsv] at h
              subst h
              exact ⟨freps, trace, .ok blob,
                [.progress none, .progress none, .complete], rfl, rfl, rfl,
                Or.inr ⟨rfl, Or.inr rfl⟩⟩
            | error e =>
              simp [hsv] at h
              subst h
              exact ⟨freps, trace, .ok blob,
                [.progress none, .progress none, errReport e], rfl, rfl, rfl,
                Or.inl ⟨e, rfl, Or.inr (Or.inr rfl)⟩⟩

theorem progressTenths_mono (den a b : Nat) (hab : a ≤ b) :
    progressTenths a den ≤ progressTenths b den := by
  unfold progressTenths
  have h1 : a * 2000 + den ≤ b * 2000 + den := by
    have : a * 2000 ≤ b * 2000 := Nat.mul_le_mul_right 2000 hab
    omega
  exact Nat.div_le_div_right h1

theorem progressTenths_eq_1000_iff (num den : Nat) (hden : 0 < den) :
    progressTenths num den = 1000 ↔
      1999 * den ≤ 2000 * num ∧ 2000 * num < 2001 * den := by
  have h2 : 0 < 2 * den := by omega
  have hle : 1000 ≤ (num * 2000 + den) / (2 * den) ↔
      1000 * (2 * den) ≤ num * 2000 + den := Nat.le_div_iff_mul_le h2
  have hlt : (num * 2000 + den) / (2 * den) < 1001 ↔
      num * 2000 + den < 1001 * (2 * den) := Nat.div_lt_iff_lt_mul h2
  unfold progressTenths
  constructor
  · intro hq
    have ha := hle.mp (by omega)
    have hb := hlt.mp (by omega)
    omega
  · intro hab
    have ha := hle.mpr (by omega)
    have hb := hlt.mpr (by omega)
    omega

theorem chain_le_map (f : Nat → Nat) (hf : ∀ a b, a ≤ b → f a ≤ f b) :
    ∀ l : List Nat, List.Chain' (· ≤ ·) l → List.Chain' (· ≤ ·) (l.map f) := by
  intro l h
  induction l with
  | nil => simp
  | cons a t ih =>
    cases t with
    | nil => simp
    | cons b t' =>
      rw [List.map_cons, List.map_cons, List.chain'_cons]
      rw [List.chain'_cons] at h
      exact ⟨hf _ _ h.1, by simpa using ih h.2⟩

/-- C1: a download that completes persists exactly the transferred bytes.
A single full status-200 response persists its body unchanged; a chunked
status-206 transfer with a Content-Range total persists the concatenation
of all received chunks in fetch order, so for every honest chunking of the
source (each range request for offset `s` answered with a nonempty initial
segment of the bytes from `s` on), downloading and reading the archive back
yields the original source bytes. -/
theorem downloadMap_persists_source (url : String) (resp : FetchResponse)
    (server : Nat → FetchResponse) (save : List Nat → Except JsError Unit)
    (source : List Nat) (fuel : Nat)
    (hurl : url ≠ "") (hsave : ∀ b, save b = .ok ()) :
    (resp.ok = true → resp.status = 200 → resp.body = source →
      ∃ r, downloadMap url resp server save none fuel = some r ∧
        r.persisted = some source) ∧
    (resp.ok = true → resp.status = 206 →
      resp.contentRange = some (some source.length) →
      resp.body <+: source →
      (∀ s, s < source.length →
        (server s).ok = true ∧ (server s).body ≠ [] ∧ (server s).body <+: source.drop s) →
      source.length ≤ fuel →
      ∃ r, downloadMap url resp server save none fuel = some r ∧
        r.persisted = some source) := by
  constructor
  · intro hok h200 hbody
    have hfp : fetchPhase resp server fuel = some ([.progress none], [], .ok resp.body) := by
      rw [fetchPhase]
      simp [hok, h200]
    refine ⟨⟨Report.start :: [Report.progress none] ++ [Report.progress none, Report.complete],
      [], some source, Except.ok ()⟩, ?_, rfl⟩
    rw [downloadMap, if_neg hurl, hfp]
    simp [hsave, hbody]
  · intro hok h206 hcr hpref hserver hfuel
    have hblen : resp.body.length ≤ source.length := hpref.length_le
    obtain ⟨chunks, recs, hcl, hflat⟩ :=
      chunkLoop_complete source server hserver fuel resp.body.length hblen (by omega)
    have hblob : (resp.body :: chunks).flatten = source := by
      obtain ⟨t, ht⟩ := hpref
      have hdrop : source.drop resp.body.length = t := by
        rw [← ht]; exact List.drop_left _ _
      rw [List.flatten_cons, hflat, hdrop, ht]
    have hfp : fetchPhase resp server fuel =
        some (Report.progress none ::
            (resp.body.length :: recs).map
              (fun n => Report.progress (some (progressTenths n source.length))) ++
            [Report.progress none],
          resp.body.length :: recs, Except.ok ((resp.body :: chunks).flatten)) := by
      rw [fetchPhase, hcr]
      simp [hok, h206, hcl]
    refine ⟨⟨Report.start :: (Report.progress none ::
        (resp.body.length :: recs).map
          (fun n => Report.progress (some (progressTenths n source.length))) ++
        [Report.progress none]) ++ [Report.progress none, Report.complete],
      resp.body.length :: recs, some source, Except.ok ()⟩, ?_, rfl⟩
    rw [downloadMap, if_neg hurl, hfp]
    simp [hsave, hblob]

theorem downloadMap_persists_source_witness :
    ∃ r, downloadMap "u" ⟨true, 206, some (some 3), [1]⟩
        (fun s => ⟨true, 206, none, ([1, 2, 3].drop s).take 1⟩)
        (fun _ => Except.ok ()) none 3 = some r ∧ r.persisted = some [1, 2, 3] :=
  (downloadMap_persists_source "u" ⟨true, 206, some (some 3), [1]⟩
      (fun s => ⟨true, 206, none, ([1, 2, 3].drop s).take 1⟩) (fun _ => Except.ok ())
      [1, 2, 3] 3 (by decide) (fun _ => rfl)).2 rfl rfl rfl ⟨[2, 3], rfl⟩
      (by decide) (by decide)

theorem isErrReport_errReport (e : JsError) : isErrReport (errReport e) = true := by
  unfold errReport
  split <;> rfl

theorem reportPct_errReport (e : JsError) : reportPct (errReport e) = none := by
  unfold errReport
  split <;> rfl

theorem reportPct_progress_none : reportPct (Report.progress none) = none := rfl

theorem reportPct_progress_some (p : Nat) : reportPct (Report.progress (some p)) = some p := rfl

theorem reportPct_complete : reportPct Report.complete = none := rfl

theorem reportPct_start : reportPct Report.start = none := rfl

theorem getLast?_append_concat (l mid : List Report) (a : Report) :
    (l ++ (mid ++ [a])).getLast? = some a := by
  rw [← List.append_assoc]
  exact List.getLast?_concat _

theorem fetchPhase_206_cr (body : List Nat) (server : Nat → FetchResponse)
    (fuel total : Nat) (chunks : List (List Nat)) (recs : List Nat)
    (hcl : chunkLoop server total fuel body.length = some (chunks, recs, none)) :
    fetchPhase ⟨true, 206, some (some total), body⟩ server fuel =
      some (Report.progress none ::
          (body.length :: recs).map (fun n => Report.progress (some (progressTenths n total))) ++
          [Report.progress none],
        body.length :: recs, Except.ok ((body :: chunks).flatten)) := by
  rw [fetchPhase]
  simp [hcl]

/-- C2 (amended): across a chunked download the reported progress
percentages are monotonically non-decreasing; a reported percentage equals
exactly 100 (i.e. 100.0 after rounding to one decimal) if and only if
`1999 * total ≤ 2000 * received < 2001 * total` — which can happen with
`received < total`, so "equals 100 only at `received = total`" does not
hold of the code. -/
theorem downloadMap_progress_monotone (url : String) (resp : FetchResponse)
    (server : Nat → FetchResponse) (save : List Nat → Except JsError Unit)
    (styleStep : Option (Except JsError Unit)) (fuel : Nat) (r : DownloadResult) (total : Nat)
    (h : downloadMap url resp server save styleStep fuel = some r)
    (hcr : resp.contentRange = some (some total)) (htot : 0 < total) :
    List.Chain' (· ≤ ·) (pcts r.reports) ∧
    (∀ n ∈ r.trace, (progressTenths n total = 1000 ↔
      1999 * total ≤ 2000 * n ∧ 2000 * n < 2001 * total)) := by
  rcases downloadMap_spec url resp server save styleStep fuel r h with
    ⟨-, rfl⟩ | ⟨freps, trace, out, tail, hfp, htr, hreps, hdisj⟩
  · exact ⟨by simp [pcts, List.filterMap_cons, reportPct], by simp⟩
  · obtain ⟨-, hchain, hpcts, -⟩ := fetchPhase_spec resp server fuel freps trace out hfp
    have htail : pcts tail = [] := by
      rcases hdisj with ⟨e, -, rfl | rfl | rfl⟩ | ⟨-, rfl | rfl⟩ <;>
        simp only [pcts, List.filterMap_cons, reportPct_progress_none, reportPct_complete,
          reportPct_errReport, List.filterMap_nil]
    have hpc : pcts r.reports = trace.map (fun n => progressTenths n total) := by
      rw [hreps, pcts_append]
      have h2 : pcts (Report.start :: freps) = pcts freps := by
        simp only [pcts, List.filterMap_cons, reportPct_start]
      rw [h2, htail, List.append_nil, hpcts total hcr]
    refine ⟨?_, ?_⟩
    · rw [hpc]
      exact chain_le_map _ (fun a b hab => progressTenths_mono total a b hab) trace hchain
    · intro n _
      exact progressTenths_eq_1000_iff n total htot

theorem downloadMap_progress_monotone_witness :
    List.Chain' (· ≤ ·) (pcts (DownloadResult.mk
      [Report.start, .progress none, .progress (some 1000), .progress none,
        .progress none, .complete] [1] (some [5]) (.ok ())).reports) ∧
    (∀ n ∈ (DownloadResult.mk
      [Report.start, .progress none, .progress (some 1000), .progress none,
        .progress none, .complete] [1] (some [5]) (.ok ())).trace,
      (progressTenths n 1 = 1000 ↔ 1999 * 1 ≤ 2000 * n ∧ 2000 * n < 2001 * 1)) :=
  downloadMap_progress_monotone "u" ⟨true, 206, some (some 1), [5]⟩
    (fun _ => ⟨true, 206, none, [6]⟩) (fun _ => Except.ok ()) none 0
    ⟨[Report.start, .progress none, .progress (some 1000), .progress none,
      .progress none, .complete], [1], some [5], .ok ()⟩ 1 (by decide) rfl (by decide)

/-- C2 counterexample: with a total of 2048 bytes and a first chunk of 2047
bytes, the first progress report is exactly 100.0 (2047/2048 ≈ 99.95 %
rounds up to one decimal) although the received counter (2047) does not
equal the announced total (2048) — refuting "a reported percentage equals
exactly 100 only when `receivedBytes == totalBytes`". -/
theorem downloadMap_progress_hits_100_early :
    (downloadMap "u" ⟨true, 206, some (some 2048), List.replicate 2047 0⟩
        (fun _ => ⟨true, 206, none, [0]⟩) (fun _ => Except.ok ()) none 1).map
      (fun r => (r.trace, pcts r.reports)) = some ([2047, 2048], [1000, 1000]) ∧
    ¬(2047 = 2048) := by
  constructor
  · have hlen : (List.replicate 2047 (0 : Nat)).length = 2047 := List.length_replicate _ _
    have hcl : chunkLoop (fun _ => (⟨true, 206, none, [0]⟩ : FetchResponse)) 2048 1
        (List.replicate 2047 (0 : Nat)).length = some ([[0]], [2048], none) := by
      rw [hlen]
      decide
    have hp1 : progressTenths 2047 2048 = 1000 := by decide
    have hp2 : progressTenths 2048 2048 = 1000 := by decide
    have hfp := fetchPhase_206_cr (List.replicate 2047 0)
      (fun _ => ⟨true, 206, none, [0]⟩) 1 2048 [[0]] [2048] hcl
    rw [hlen] at hfp
    rw [downloadMap, if_neg (by decide : ¬("u" = "")), hfp]
    simp only [Option.map_some]
    simp only [pcts, List.filterMap_cons, List.filterMap_append, List.filterMap_nil,
      List.map_cons, List.map_nil, reportPct_start, reportPct_progress_none,
      reportPct_progress_some, reportPct_complete, hp1, hp2]
    rfl
  · decide

/-- C3 (amended): during a chunked download with a known Content-Range
total, the running received counter never exceeds the total provided the
server honours the requested ranges — each response to a range request
starting at `s` carries at most `total - s` bytes (and the initial chunk at
most `total`).  Without that proviso the counter can overrun, see the
counterexample. -/
theorem downloadMap_received_le_total (url : String) (resp : FetchResponse)
    (server : Nat → FetchResponse) (save : List Nat → Except JsError Unit)
    (styleStep : Option (Except JsError Unit)) (fuel : Nat) (r : DownloadResult) (total : Nat)
    (h : downloadMap url resp server save styleStep fuel = some r)
    (hcr : resp.contentRange = some (some total))
    (hbody : resp.body.length ≤ total)
    (hs : ∀ s, s < total → (server s).body.length ≤ total - s) :
    ∀ n ∈ r.trace, n ≤ total := by
  rcases downloadMap_spec url resp server save styleStep fuel r h with
    ⟨-, rfl⟩ | ⟨freps, trace, out, tail, hfp, htr, -, -⟩
  · simp
  · obtain ⟨-, -, -, hle⟩ := fetchPhase_spec resp server fuel freps trace out hfp
    rw [htr]
    exact hle total hcr hbody hs

theorem downloadMap_received_le_total_witness : (2 : Nat) ≤ 2 :=
  downloadMap_received_le_total "u" ⟨true, 206, some (some 2), [7]⟩
    (fun _ => ⟨true, 206, none, [8]⟩) (fun _ => Except.ok ()) none 2
    ⟨[Report.start, .progress none, .progress (some 500), .progress (some 1000),
      .progress none, .progress none, .complete], [1, 2], some [7, 8], .ok ()⟩ 2
    (by decide) rfl (by decide) (by decide) 2 (by decide)

/-- C3 counterexample: a server that answers the range request at offset 1
with five bytes although only one byte remains drives the received counter
to 6 > 2 — the code never clamps, so the invariant fails for arbitrary
chunk sizes. -/
theorem downloadMap_received_overruns :
    (downloadMap "u" ⟨true, 206, some (some 2), [7]⟩
        (fun _ => ⟨true, 206, none, [1, 2, 3, 4, 5]⟩) (fun _ => Except.ok ()) none 1).map
      (fun r => r.trace) = some [1, 6] ∧ ¬(6 ≤ 2) := by
  exact ⟨by decide, by decide⟩

/-- C6 (amended): every failure raised inside the try block of
`downloadMap` is reported through the progress channel (the final report is
the mapped failure report) and re-raised to the caller; when the call
returns normally no failure report was emitted — with one exception: a
missing/empty URL is reported as an error but the call then returns
normally instead of re-raising. -/
theorem downloadMap_error_propagation (url : String) (resp : FetchResponse)
    (server : Nat → FetchResponse) (save : List Nat → Except JsError Unit)
    (styleStep : Option (Except JsError Unit)) (fuel : Nat) (r : DownloadResult)
    (h : downloadMap url resp server save styleStep fuel = some r) :
    (url = "" ∧ r.reports = [Report.error "Error: No URL provided"] ∧
      r.outcome = Except.ok ()) ∨
    (∃ e, r.outcome = Except.error e ∧ r.reports.getLast? = some (errReport e) ∧
      isErrReport (errReport e) = true) ∨
    (r.outcome = Except.ok () ∧ ∀ x ∈ r.reports, isErrReport x = false) := by
  rcases downloadMap_spec url resp server save styleStep fuel r h with
    ⟨hurl, rfl⟩ | ⟨freps, trace, out, tail, hfp, -, hreps, hdisj⟩
  · exact Or.inl ⟨hurl, rfl, rfl⟩
  · obtain ⟨hprog, -, -, -⟩ := fetchPhase_spec resp server fuel freps trace out hfp
    rcases hdisj with ⟨e, hout, htail⟩ | ⟨hout, htail⟩
    · refine Or.inr (Or.inl ⟨e, hout, ?_, isErrReport_errReport e⟩)
      rcases htail with rfl | rfl | rfl
      · rw [hreps]
        exact getLast?_append_concat (Report.start :: freps) [] (errReport e)
      · rw [hreps]
        exact getLast?_append_concat (Report.start :: freps) [Report.progress none] (errReport e)
      · rw [hreps]
        exact getLast?_append_concat (Report.start :: freps)
          [Report.progress none, Report.progress none] (errReport e)
    · refine Or.inr (Or.inr ⟨hout, ?_⟩)
      intro x hx
      rw [hreps] at hx
      rcases List.mem_cons.mp hx with rfl | hx
      · rfl
      rcases List.mem_append.mp hx with hx | hx
      · obtain ⟨p, rfl⟩ := hprog x hx
        rfl
      · rcases htail with rfl | rfl <;> (simp at hx; rcases hx with rfl | rfl <;> rfl)

theorem downloadMap_error_propagation_witness :
    ("u" = "" ∧ (DownloadResult.mk [Report.start, .progress none, .progress none, .complete]
        [] (some [5]) (.ok ())).reports = [Report.error "Error: No URL provided"] ∧
      (DownloadResult.mk [Report.start, .progress none, .progress none, .complete]
        [] (some [5]) (.ok ())).outcome = Except.ok ()) ∨
    (∃ e, (DownloadResult.mk [Report.start, .progress none, .progress none, .complete]
        [] (some [5]) (.ok ())).outcome = Except.error e ∧
      (DownloadResult.mk [Report.start, .progress none, .progress none, .complete]
        [] (some [5]) (.ok ())).reports.getLast? = some (errReport e) ∧
      isErrReport (errReport e) = true) ∨
    ((DownloadResult.mk [Report.start, .progress none, .progress none, .complete]
        [] (some [5]) (.ok ())).outcome = Except.ok () ∧
      ∀ x ∈ (DownloadResult.mk [Report.start, .progress none, .progress none, .complete]
        [] (some [5]) (.ok ())).reports, isErrReport x = false) :=
  downloadMap_error_propagation "u" ⟨true, 200, none, [5]⟩ (fun _ => ⟨true, 200, none, []⟩)
    (fun _ => Except.ok ()) none 0
    ⟨[Report.start, .progress none, .progress none, .complete], [], some [5], .ok ()⟩
    (by decide)

/-- C6 counterexample: a missing URL is reported as an error through the
progress channel but `downloadMap` then returns normally — the failure is
not re-raised to the caller, refuting "there is no failure path that is
reported but silently swallowed without re-raising". -/
theorem downloadMap_missing_url_not_reraised :
    downloadMap "" ⟨true, 200, none, []⟩ (fun _ => ⟨true, 200, none, []⟩)
      (fun _ => Except.ok ()) none 0 =
      some ⟨[Report.error "Error: No URL provided"], [], none, Except.ok ()⟩ ∧
    isErrReport (Report.error "Error: No URL provided") = true := by
  exact ⟨by decide, rfl⟩

/-- C7: every error caught by `downloadMap` whose name is
`QuotaExceededError` is reported with the `ERROR_QUOTA` code and never as a
generic `ERROR` report; every other caught error is reported as `ERROR`
with the underlying message. -/
theorem downloadMap_quota_mapping (url : String) (resp : FetchResponse)
    (server : Nat → FetchResponse) (save : List Nat → Except JsError Unit)
    (styleStep : Option (Except JsError Unit)) (fuel : Nat) (r : DownloadResult) (e : JsError)
    (h : downloadMap url resp server save styleStep fuel = some r)
    (ho : r.outcome = Except.error e) :
    (e.name = "QuotaExceededError" →
      r.reports.getLast? = some Report.errorQuota ∧ ∀ m, Report.error m ∉ r.reports) ∧
    (e.name ≠ "QuotaExceededError" →
      r.reports.getLast? = some (Report.error ("Error: " ++ e.msg))) := by
  rcases downloadMap_spec url resp server save styleStep fuel r h with
    ⟨-, rfl⟩ | ⟨freps, trace, out, tail, hfp, -, hreps, hdisj⟩
  · exact Except.noConfusion ho
  · obtain ⟨hprog, -, -, -⟩ := fetchPhase_spec resp server fuel freps trace out hfp
    rcases hdisj with ⟨e', hout, htail⟩ | ⟨hout, -⟩
    · rw [hout] at ho
      have hee : e' = e := Except.error.inj ho
      rw [hee] at htail
      have hlast : r.reports.getLast? = some (errReport e) := by
        rcases htail with rfl | rfl | rfl
        · rw [hreps]
          exact getLast?_append_concat (Report.start :: freps) [] (errReport e)
        · rw [hreps]
          exact getLast?_append_concat (Report.start :: freps) [Report.progress none]
            (errReport e)
        · rw [hreps]
          exact getLast?_append_concat (Report.start :: freps)
            [Report.progress none, Report.progress none] (errReport e)
      constructor
      · intro hq
        have herq : errReport e = Report.errorQuota := by
          unfold errReport
          rw [if_pos hq]
        refine ⟨by rw [hlast, herq], ?_⟩
        intro m hm
        rw [hreps] at hm
        rcases List.mem_cons.mp hm with hc | hm
        · exact Report.noConfusion hc
        rcases List.mem_append.mp hm with hm | hm
        · obtain ⟨p, hp⟩ := hprog _ hm
          exact Report.noConfusion hp
        · rcases htail with rfl | rfl | rfl <;> rw [herq] at hm <;> simp at hm
      · intro hq
        have herq : errReport e = Report.error ("Error: " ++ e.msg) := by
          unfold errReport
          rw [if_neg hq]
        rw [hlast, herq]
    · rw [hout] at ho
      exact Except.noConfusion ho

theorem downloadMap_quota_mapping_witness :
    (JsError.name ⟨"QuotaExceededError", "q"⟩ = "QuotaExceededError" →
      (DownloadResult.mk [Report.start, .progress none, .progress none, Report.errorQuota]
        [] none (.error ⟨"QuotaExceededError", "q"⟩)).reports.getLast? =
          some Report.errorQuota ∧
      ∀ m, Report.error m ∉ (DownloadResult.mk
        [Report.start, .progress none, .progress none, Report.errorQuota]
        [] none (.error ⟨"QuotaExceededError", "q"⟩)).reports) ∧
    (JsError.name ⟨"QuotaExceededError", "q"⟩ ≠ "QuotaExceededError" →
      (DownloadResult.mk [Report.start, .progress none, .progress none, Report.errorQuota]
        [] none (.error ⟨"QuotaExceededError", "q"⟩)).reports.getLast? =
          some (Report.error ("Error: " ++ JsError.msg ⟨"QuotaExceededError", "q"⟩))) :=
  downloadMap_quota_mapping "u" ⟨true, 200, none, [5]⟩ (fun _ => ⟨true, 200, none, []⟩)
    (fun _ => Except.error ⟨"QuotaExceededError", "q"⟩) none 0
    ⟨[Report.start, .progress none, .progress none, Report.errorQuota], [], none,
      .error ⟨"QuotaExceededError", "q"⟩⟩ ⟨"QuotaExceededError", "q"⟩ (by decide) rfl

/-! ## Protocol resolver claims -/

/-- C4 (amended): for a stored archive and an unaborted request, a path of
exactly 1 component is answered as a metadata request and a path of exactly
4 components as a tile request; for any other component count the handler
returns no result at all (the implicit `undefined` of the fall-through) —
it neither errors nor returns data. -/
theorem protocolHandler_dispatch (url : String) (storage : String → Option Blob)
    (getHeader : Blob → Header) (getMetadata : Blob → Option Metadata)
    (getZxy : Blob → Option Int → Option Int → Option Int → Option (List Nat))
    (blob : Blob)
    (hblob : storage ((jsSplit url '/').headD "") = some blob) :
    ((jsSplit url '/').length = 1 →
      protocolHandler url false storage getHeader getMetadata getZxy =
        .ok (.metaDescriptor (resolveZoomBounds (getHeader blob) (getMetadata blob)).1
          (resolveZoomBounds (getHeader blob) (getMetadata blob)).2.1
          (resolveZoomBounds (getHeader blob) (getMetadata blob)).2.2)) ∧
    ((jsSplit url '/').length = 4 →
      ∃ d, protocolHandler url false storage getHeader getMetadata getZxy =
        .ok (.tileData d)) ∧
    ((jsSplit url '/').length ≠ 1 → (jsSplit url '/').length ≠ 4 →
      protocolHandler url false storage getHeader getMetadata getZxy =
        HandlerResult.noResult) := by
  have hblob' : storage ((jsSplit url '/').head?.getD "") = some blob := by
    rw [← List.headD_eq_head?_getD]
    exact hblob
  refine ⟨?_, ?_, ?_⟩
  · intro h1
    simp [protocolHandler, hblob', h1]
  · intro h4
    have h1 : ¬((jsSplit url '/').length = 1) := by omega
    simp only [protocolHandler, hblob, h1, h4, Bool.false_eq_true, if_false, if_true,
      ite_false, ite_true]
    cases getZxy blob (parseIntJs ((jsSplit url '/').getD 1 ""))
        (parseIntJs ((jsSplit url '/').getD 2 ""))
        (parseIntJs ((jsSplit url '/').getD 3 "")) with
    | none => exact ⟨none, rfl⟩
    | some d => exact ⟨some d, rfl⟩
  · intro h1 h4
    simp [protocolHandler, hblob', h1, h4]

theorem protocolHandler_dispatch_witness :
    (((jsSplit "a" '/').length = 1 →
      protocolHandler "a" false (fun _ => some ([] : Blob)) (fun _ => ⟨0, 0, 0, 0, 0, 0, 1⟩)
          (fun _ => none) (fun _ _ _ _ => none) =
        .ok (.metaDescriptor (resolveZoomBounds ⟨0, 0, 0, 0, 0, 0, 1⟩ none).1
          (resolveZoomBounds ⟨0, 0, 0, 0, 0, 0, 1⟩ none).2.1
          (resolveZoomBounds ⟨0, 0, 0, 0, 0, 0, 1⟩ none).2.2)) ∧
    ((jsSplit "a" '/').length = 4 →
      ∃ d, protocolHandler "a" false (fun _ => some ([] : Blob)) (fun _ => ⟨0, 0, 0, 0, 0, 0, 1⟩)
          (fun _ => none) (fun _ _ _ _ => none) = .ok (.tileData d)) ∧
    ((jsSplit "a" '/').length ≠ 1 → (jsSplit "a" '/').length ≠ 4 →
      protocolHandler "a" false (fun _ => some ([] : Blob)) (fun _ => ⟨0, 0, 0, 0, 0, 0, 1⟩)
          (fun _ => none) (fun _ _ _ _ => none) = HandlerResult.noResult)) :=
  protocolHandler_dispatch "a" (fun _ => some ([] : Blob)) (fun _ => ⟨0, 0, 0, 0, 0, 0, 1⟩)
    (fun _ => none) (fun _ _ _ _ => none) [] rfl

/-- C4 counterexample: a two-component path for a stored archive makes the
handler fall through both branches and return `undefined` — no
unsupported-request error is raised, refuting "any other number of
components → the handler fails with an unsupported-request error". -/
theorem protocolHandler_two_parts_no_result :
    protocolHandler "a/b" false (fun _ => some ([] : Blob)) (fun _ => ⟨0, 0, 0, 0, 0, 0, 1⟩)
      (fun _ => none) (fun _ _ _ _ => none) = HandlerResult.noResult ∧
    isHandlerErr (protocolHandler "a/b" false (fun _ => some ([] : Blob))
      (fun _ => ⟨0, 0, 0, 0, 0, 0, 1⟩) (fun _ => none) (fun _ _ _ _ => none)) = false := by
  exact ⟨by decide, by decide⟩

/-- C5 (amended): if both header longitude bounds are zero and the metadata
declares a bounds list of exactly 4 numbers, the resolved bounds are the
metadata bounds and the zooms stay the header zooms; if the bounds branch
guard fails (header longitudes not both zero, or no metadata bounds) and
the metadata declares a nonzero minzoom, the metadata zooms override and
the bounds stay the header bounds; in every case at least one of the two
(zooms, bounds) keeps its header value, so the two overrides never both
apply.  (As the counterexample shows, a declared numeric minzoom does not
override whenever the bounds branch was merely entered, e.g. on a malformed
bounds list, so the claim's "otherwise" condition had to be tightened to
the branch guard.) -/
theorem resolveZoomBounds_policy (h : Header) (md : Metadata) :
    (h.minLon = 0 → h.maxLon = 0 → ∀ b, md.bounds = some b → b.length = 4 →
      resolveZoomBounds h (some md) =
        (some h.minZoom, some (if h.maxZoom = 0 then 14 else h.maxZoom), b)) ∧
    (¬(h.minLon = 0 ∧ h.maxLon = 0 ∧ md.bounds.isSome) →
      ∀ v : Int, md.minzoom = some v → v ≠ 0 →
      resolveZoomBounds h (some md) =
        (some v, md.maxzoom, [h.minLon, h.minLat, h.maxLon, h.maxLat])) ∧
    (((resolveZoomBounds h (some md)).1 = some h.minZoom ∧
        (resolveZoomBounds h (some md)).2.1 =
          some (if h.maxZoom = 0 then 14 else h.maxZoom)) ∨
      (resolveZoomBounds h (some md)).2.2 = [h.minLon, h.minLat, h.maxLon, h.maxLat]) ∧
    (resolveZoomBounds h none =
      (some h.minZoom, some (if h.maxZoom = 0 then 14 else h.maxZoom),
        [h.minLon, h.minLat, h.maxLon, h.maxLat])) := by
  refine ⟨?_, ?_, ?_, rfl⟩
  · intro hlon1 hlon2 b hb hb4
    simp [resolveZoomBounds, hlon1, hlon2, hb, hb4]
  · intro hnot v hv hv0
    simp [resolveZoomBounds, hnot, hv, hv0]
  · by_cases hc : h.minLon = 0 ∧ h.maxLon = 0 ∧ md.bounds.isSome = true
    · obtain ⟨h1, h2, hs⟩ := hc
      obtain ⟨b, hb⟩ := Option.isSome_iff_exists.mp hs
      by_cases hb4 : b.length = 4
      · exact Or.inl (by constructor <;> simp [resolveZoomBounds, h1, h2, hb, hb4])
      · exact Or.inl (by constructor <;> simp [resolveZoomBounds, h1, h2, hb, hb4])
    · by_cases hmz : (md.minzoom.getD 0) ≠ 0
      · exact Or.inr (by simp [resolveZoomBounds, hc, hmz])
      · exact Or.inl (by constructor <;> simp [resolveZoomBounds, hc, hmz])

theorem resolveZoomBounds_policy_witness :
    resolveZoomBounds ⟨3, 12, 0, 0, 0, 0, 1⟩
        (some ⟨some [2, 48, 3, 49], some 4, some 9, none⟩) =
      (some 3, some 12, [2, 48, 3, 49]) ∧
    resolveZoomBounds ⟨3, 12, 1, 0, 2, 0, 1⟩
        (some ⟨none, some 4, some 9, none⟩) =
      (some 4, some 9, [1, 0, 2, 0]) := by
  constructor
  · have := (resolveZoomBounds_policy ⟨3, 12, 0, 0, 0, 0, 1⟩
      ⟨some [2, 48, 3, 49], some 4, some 9, none⟩).1 rfl rfl [2, 48, 3, 49] rfl (by decide)
    simpa using this
  · have := (resolveZoomBounds_policy ⟨3, 12, 1, 0, 2, 0, 1⟩
      ⟨none, some 4, some 9, none⟩).2.1 (by decide) 4 rfl (by decide)
    simpa using this

/-- C5 counterexample: header longitude bounds are degenerate and the
metadata bounds list has 3 numbers (malformed), so the bounds fallback is
not used (resolved bounds stay the header bounds); metadata declares
numeric minzoom 2 and maxzoom 5, yet the resolved zooms stay the header
zooms — the zoom override is skipped although the bounds fallback was not
used, refuting the claim's "otherwise, if the metadata declares numeric
minzoom/maxzoom, those override". -/
theorem resolveZoomBounds_no_zoom_override :
    resolveZoomBounds ⟨3, 12, 0, 0, 0, 0, 1⟩
        (some ⟨some [1, 2, 48], some 2, some 5, none⟩) =
      (some 3, some 12, [0, 0, 0, 0]) ∧
    ¬((some 3 : Option Int) = some 2) := by
  exact ⟨by decide, by decide⟩

/-- C8: a tile request (4 components, stored archive, no abort) whose
coordinate the archive reader does not find returns the explicit empty
result `{ data: null }` and is not an error. -/
theorem protocolHandler_absent_tile (url : String) (storage : String → Option Blob)
    (getHeader : Blob → Header) (getMetadata : Blob → Option Metadata)
    (getZxy : Blob → Option Int → Option Int → Option Int → Option (List Nat)) (blob : Blob)
    (hblob : storage ((jsSplit url '/').headD "") = some blob)
    (h4 : (jsSplit url '/').length = 4)
    (hz : getZxy blob (parseIntJs ((jsSplit url '/').getD 1 ""))
      (parseIntJs ((jsSplit url '/').getD 2 ""))
      (parseIntJs ((jsSplit url '/').getD 3 "")) = none) :
    protocolHandler url false storage getHeader getMetadata getZxy =
      .ok (.tileData none) ∧
    isHandlerErr (protocolHandler url false storage getHeader getMetadata getZxy) = false := by
  have h1 : ¬((jsSplit url '/').length = 1) := by omega
  have hblob' : storage ((jsSplit url '/').head?.getD "") = some blob := by
    rw [← List.headD_eq_head?_getD]
    exact hblob
  have hb1 : 1 < (jsSplit url '/').length := by omega
  have hb2 : 2 < (jsSplit url '/').length := by omega
  have hb3 : 3 < (jsSplit url '/').length := by omega
  have hz' := hz
  rw [List.getD_eq_getElem?_getD, List.getElem?_eq_getElem hb1,
    List.getD_eq_getElem?_getD, List.getElem?_eq_getElem hb2,
    List.getD_eq_getElem?_getD, List.getElem?_eq_getElem hb3] at hz'
  simp only [Option.getD_some] at hz'
  have hres : protocolHandler url false storage getHeader getMetadata getZxy =
      .ok (.tileData none) := by
    simp [protocolHandler, hblob', h1, h4, hz']
  exact ⟨hres, by rw [hres]; rfl⟩

theorem protocolHandler_absent_tile_witness :
    protocolHandler "a/1/2/3" false (fun _ => some ([] : Blob))
      (fun _ => ⟨0, 0, 0, 0, 0, 0, 1⟩) (fun _ => none) (fun _ _ _ _ => none) =
      .ok (.tileData none) ∧
    isHandlerErr (protocolHandler "a/1/2/3" false (fun _ => some ([] : Blob))
      (fun _ => ⟨0, 0, 0, 0, 0, 0, 1⟩) (fun _ => none) (fun _ _ _ _ => none)) = false :=
  protocolHandler_absent_tile "a/1/2/3" (fun _ => some ([] : Blob))
    (fun _ => ⟨0, 0, 0, 0, 0, 0, 1⟩) (fun _ => none) (fun _ _ _ _ => none) []
    rfl (by decide) rfl

/-! ## ByteRangeSource claim -/

/-- C9 (amended): `getBytes(offset, length)` returns exactly the bytes in
`[offset, min(offset + length, size))` — the requested count whenever
`offset + length` is within the blob, with no validation of
`offset + length` against the total size; an out-of-range request is
silently truncated by `Blob.slice` rather than failing, so "never silently
returns fewer bytes than requested" does not hold. -/
theorem getBytes_slice (blob : List Nat) (offset length : Nat) :
    getBytes blob offset length = (blob.drop offset).take length ∧
    (offset + length ≤ blob.length → (getBytes blob offset length).length = length) := by
  have h0 : getBytes blob offset length = (blob.drop offset).take length := by
    unfold getBytes blobSlice
    rw [List.drop_take]
    congr 1
    omega
  refine ⟨h0, fun hle => ?_⟩
  rw [h0, List.length_take, List.length_drop]
  omega

theorem getBytes_slice_witness :
    getBytes [7, 8, 9] 1 2 = ([7, 8, 9].drop 1).take 2 ∧
    (getBytes [7, 8, 9] 1 2).length = 2 :=
  ⟨(getBytes_slice [7, 8, 9] 1 2).1, (getBytes_slice [7, 8, 9] 1 2).2 (by decide)⟩

/-- C9 counterexample: reading 5 bytes at offset 0 of a 2-byte blob
silently yields the 2 available bytes — fewer than requested, without any
failure, refuting "it never silently returns fewer bytes than
requested". -/
theorem getBytes_truncates :
    getBytes [7, 8] 0 5 = [7, 8] ∧ (getBytes [7, 8] 0 5).length = 2 ∧ ¬((2 : Nat) = 5) := by
  exact ⟨by decide, by decide, by decide⟩

/-! ## Map loading: string marker lemmas -/

theorem strStartsWith_name_dash (name suffix : String)
    (hsuffix : suffix.data.head? = some '-') :
    strStartsWith (name ++ suffix) (name ++ "-") = true := by
  unfold strStartsWith
  rw [String.data_append, String.data_append]
  cases hd : suffix.data with
  | nil => rw [hd] at hsuffix; exact absurd hsuffix (by simp)
  | cons c cs =>
    rw [hd] at hsuffix
    obtain rfl : c = '-' := by simpa using hsuffix
    have h1 : ("-" : String).data = ['-'] := rfl
    rw [h1, show ('-' :: cs) = ['-'] ++ cs from rfl, ← List.append_assoc,
      List.isPrefixOf_iff_prefix]
    exact List.prefix_append _ _

theorem marker_raster (name : String) :
    strStartsWith (name ++ "-raster") (name ++ "-") = true :=
  strStartsWith_name_dash name "-raster" rfl

theorem marker_fill (name : String) :
    strStartsWith (name ++ "-fill") (name ++ "-") = true :=
  strStartsWith_name_dash name "-fill" rfl

theorem marker_line (name : String) :
    strStartsWith (name ++ "-line") (name ++ "-") = true :=
  strStartsWith_name_dash name "-line" rfl

theorem marker_fallback (name : String) :
    strStartsWith (name ++ "-fallback-fill") (name ++ "-") = true :=
  strStartsWith_name_dash name "-fallback-fill" rfl

theorem marker_debug (name i : String) :
    strStartsWith (name ++ "-debug-" ++ i) (name ++ "-") = true := by
  rw [String.append_assoc]
  exact strStartsWith_name_dash name ("-debug-" ++ i) (by rw [String.data_append]; rfl)

theorem marker_custom (name x : String) :
    strStartsWith (name ++ "-" ++ x) (name ++ "-") = true := by
  rw [String.append_assoc]
  exact strStartsWith_name_dash name ("-" ++ x) (by rw [String.data_append]; rfl)

theorem background_not_marker (name : String) :
    strStartsWith "background" (name ++ "-") = false := by
  by_contra h
  rw [Bool.not_eq_false] at h
  unfold strStartsWith at h
  rw [ List.isPrefixOf_iff_prefix] at h
  have hmem : '-' ∈ (name ++ "-").data := by
    rw [String.data_append]
    exact List.mem_append.mpr (Or.inr (by rw [show ("-" : String).data = ['-'] from rfl]; simp))
  have : '-' ∈ ("background" : String).data := h.subset hmem
  exact absurd this (by decide)

/-! ## Map loading: sources -/

theorem addLayerAt_sources (m : MapState) (l : MapLayer) (before : Option String) :
    (addLayerAt m l before).sources = m.sources := by
  unfold addLayerAt
  by_cases hp : getLayerB m l.id
  · rw [if_pos hp]
  · rw [if_neg hp]
    cases before <;> rfl

theorem foldl_sources_preserve {α : Type} (f : MapState → α → MapState)
    (hf : ∀ m a, (f m a).sources = m.sources) (l : List α) :
    ∀ m : MapState, (l.foldl f m).sources = m.sources := by
  induction l with
  | nil => intro m; rfl
  | cons a t ih => intro m; rw [List.foldl_cons, ih, hf]

theorem addCustomStyleLayers_sources (m : MapState) (ls : List MapLayer) (sid name : String) :
    (addCustomStyleLayers m ls sid name).sources = m.sources :=
  foldl_sources_preserve _ (fun m' l => addLayerAt_sources m' (customTransform sid name l) none)
    ls m

theorem bgStep_sources (m : MapState) : (bgStep m).sources = m.sources := by
  unfold bgStep
  by_cases hbg : getLayerB m "background"
  · rw [if_pos hbg]
  · rw [if_neg hbg]
    exact addLayerAt_sources _ _ _

theorem debugStep_sources (polyL lineL : Option String) (sid name : String)
    (m : MapState) (i : String) : (debugStep polyL lineL sid name m i).sources = m.sources := by
  unfold debugStep
  by_cases h1 : getLayerB m (name ++ "-debug-" ++ i)
  · rw [if_pos h1]
  · rw [if_neg h1]
    by_cases h2 : polyL = some i ∨ lineL = some i
    · rw [if_pos h2]
    · rw [if_neg h2]
      exact addLayerAt_sources _ _ _

theorem addVectorLayers_sources (m : MapState) (vls : List String) (sid name : String) :
    (addVectorLayers m vls sid name).sources = m.sources := by
  simp only [addVectorLayers]
  by_cases hv : 0 < vls.length
  · rw [if_pos hv, foldl_sources_preserve _ (debugStep_sources _ _ _ _)]
    cases vls.find? (fun i => polyIds.contains i) <;>
      cases vls.find? (fun i => lineIds.contains i) <;>
      simp only [addLayerAt_sources, bgStep_sources]
  · rw [if_neg hv, addLayerAt_sources, bgStep_sources]

theorem getSourceB_cleanup_self (m : MapState) (name : String) :
    getSourceB (cleanup m name) (name ++ "-source") = false := by
  unfold getSourceB cleanup
  rw [Bool.eq_false_iff]
  intro h
  rw [List.any_eq_true] at h
  obtain ⟨s, hmem, hp⟩ := h
  rw [List.mem_filter] at hmem
  exact (of_decide_eq_true hmem.2) (of_decide_eq_true hp)

theorem addSource_layers (m : MapState) (sid : String) :
    (addSource m sid).layers = m.layers := by
  unfold addSource
  split <;> rfl

theorem loadMap_sources (m : MapState) (name : String) (blob : Blob)
    (gh : Blob → Header) (gm : Blob → Option Metadata)
    (st : Option (Option (List MapLayer))) :
    (loadMap m name (some blob) gh gm st).sources =
      (cleanup m name).sources ++ [name ++ "-source"] := by
  have haddsrc : (addSource (cleanup m name) (name ++ "-source")).sources =
      (cleanup m name).sources ++ [name ++ "-source"] := by
    unfold addSource
    rw [if_neg (by rw [getSourceB_cleanup_self]; exact Bool.false_ne_true)]
  simp only [loadMap]
  by_cases hv : (gh blob).tileType = 1
  · rw [if_pos hv]
    cases st with
    | none => rw [addVectorLayers_sources, haddsrc]
    | some s =>
      cases s with
      | none => rw [addVectorLayers_sources, haddsrc]
      | some ls => rw [addCustomStyleLayers_sources, haddsrc]
  · rw [if_neg hv]
    unfold addRasterLayer
    rw [addLayerAt_sources, haddsrc]

theorem count_cleanup_append (l : List String) (sid : String) :
    ((l.filter (fun s => decide ¬(s = sid))) ++ [sid]).count sid = 1 := by
  rw [List.count_append]
  have h0 : (l.filter (fun s => decide ¬(s = sid))).count sid = 0 := by
    rw [List.count_eq_zero]
    intro hmem
    rw [List.mem_filter] at hmem
    simp at hmem
  rw [h0]
  simp

/-! ## Map loading: no duplicate layer ids -/

theorem getLayerB_eq_true_iff (m : MapState) (p : String) :
    getLayerB m p = true ↔ p ∈ layerIds m := by
  unfold getLayerB layerIds
  rw [List.any_eq_true]
  constructor
  · rintro ⟨l, hl, hp⟩
    exact List.mem_map.mpr ⟨l, hl, of_decide_eq_true hp⟩
  · intro hmem
    obtain ⟨l, hl, hid⟩ := List.mem_map.mp hmem
    exact ⟨l, hl, decide_eq_true hid⟩

theorem insertBeforeId_perm (layers : List MapLayer) (bid : String) (l : MapLayer) :
    (insertBeforeId layers bid l).Perm (l :: layers) := by
  induction layers with
  | nil => exact List.Perm.refl _
  | cons x xs ih =>
    unfold insertBeforeId
    by_cases hx : x.id = bid
    · rw [if_pos hx]
    · rw [if_neg hx]
      exact (List.Perm.cons x ih).trans (List.Perm.swap l x xs)

theorem addLayerAt_nodup (m : MapState) (l : MapLayer) (before : Option String)
    (h : (layerIds m).Nodup) : (layerIds (addLayerAt m l before)).Nodup := by
  unfold addLayerAt
  by_cases hp : getLayerB m l.id
  · rw [if_pos hp]
    exact h
  · rw [if_neg hp]
    have hnot : l.id ∉ layerIds m := fun hmem => hp ((getLayerB_eq_true_iff m l.id).mpr hmem)
    unfold layerIds at h hnot ⊢
    cases before with
    | none =>
      rw [List.map_append]
      simp [List.nodup_append, h, hnot]
    | some bid =>
      have hperm := (insertBeforeId_perm m.layers bid l).map (fun x => x.id)
      have hn2 : (l.id :: m.layers.map (fun x => x.id)).Nodup :=
        List.nodup_cons.mpr ⟨hnot, h⟩
      exact hperm.symm.nodup hn2

theorem cleanup_nodup (m : MapState) (name : String) (h : (layerIds m).Nodup) :
    (layerIds (cleanup m name)).Nodup := by
  unfold layerIds cleanup at *
  exact h.sublist ((List.filter_sublist m.layers).map _)

theorem foldl_nodup_preserve {α : Type} (f : MapState → α → MapState)
    (hf : ∀ m a, (layerIds m).Nodup → (layerIds (f m a)).Nodup) (l : List α) :
    ∀ m, (layerIds m).Nodup → (layerIds (l.foldl f m)).Nodup := by
  induction l with
  | nil => intro m h; exact h
  | cons a t ih => intro m h; rw [List.foldl_cons]; exact ih _ (hf _ _ h)

theorem bgStep_nodup (m : MapState) (h : (layerIds m).Nodup) :
    (layerIds (bgStep m)).Nodup := by
  unfold bgStep
  by_cases hbg : getLayerB m "background"
  · rw [if_pos hbg]
    exact h
  · rw [if_neg hbg]
    exact addLayerAt_nodup _ _ _ h

theorem debugStep_nodup (polyL lineL : Option String) (sid name : String)
    (m : MapState) (i : String) (h : (layerIds m).Nodup) :
    (layerIds (debugStep polyL lineL sid name m i)).Nodup := by
  unfold debugStep
  by_cases h1 : getLayerB m (name ++ "-debug-" ++ i)
  · rw [if_pos h1]
    exact h
  · rw [if_neg h1]
    by_cases h2 : polyL = some i ∨ lineL = some i
    · rw [if_pos h2]
      exact h
    · rw [if_neg h2]
      exact addLayerAt_nodup _ _ _ h

theorem addCustomStyleLayers_nodup (m : MapState) (ls : List MapLayer) (sid name : String)
    (h : (layerIds m).Nodup) : (layerIds (addCustomStyleLayers m ls sid name)).Nodup :=
  foldl_nodup_preserve _ (fun m' l => addLayerAt_nodup m' (customTransform sid name l) none)
    ls m h

theorem addVectorLayers_nodup (m : MapState) (vls : List String) (sid name : String)
    (h : (layerIds m).Nodup) : (layerIds (addVectorLayers m vls sid name)).Nodup := by
  simp only [addVectorLayers]
  by_cases hv : 0 < vls.length
  · rw [if_pos hv]
    apply foldl_nodup_preserve _ (debugStep_nodup _ _ _ _)
    cases vls.find? (fun i => polyIds.contains i) <;>
      cases vls.find? (fun i => lineIds.contains i) <;>
      first
        | exact bgStep_nodup m h
        | exact addLayerAt_nodup _ _ _ (bgStep_nodup m h)
        | exact addLayerAt_nodup _ _ _ (addLayerAt_nodup _ _ _ (bgStep_nodup m h))
  · rw [if_neg hv]
    exact addLayerAt_nodup _ _ _ (bgStep_nodup m h)

theorem loadMap_nodup (m : MapState) (name : String) (blob : Blob)
    (gh : Blob → Header) (gm : Blob → Option Metadata)
    (st : Option (Option (List MapLayer)))
    (h : (layerIds m).Nodup) :
    (layerIds (loadMap m name (some blob) gh gm st)).Nodup := by
  simp only [loadMap]
  have h₂ : (layerIds (addSource (cleanup m name) (name ++ "-source"))).Nodup := by
    have : layerIds (addSource (cleanup m name) (name ++ "-source")) =
        layerIds (cleanup m name) := by
      unfold layerIds
      rw [addSource_layers]
    rw [this]
    exact cleanup_nodup m name h
  by_cases hv : (gh blob).tileType = 1
  · rw [if_pos hv]
    cases st with
    | none => exact addVectorLayers_nodup _ _ _ _ h₂
    | some s =>
      cases s with
      | none => exact addVectorLayers_nodup _ _ _ _ h₂
      | some ls => exact addCustomStyleLayers_nodup _ _ _ _ h₂
  · rw [if_neg hv]
    exact addLayerAt_nodup _ _ _ h₂

/-! ## Map loading: the marked layers of a reload are determined -/

theorem any_id_filter (ls : List MapLayer) (name p : String)
    (hp : strStartsWith p (name ++ "-") = true) :
    ls.any (fun l => l.id = p) =
      (ls.filter (fun l => strStartsWith l.id (name ++ "-"))).any (fun l => l.id = p) := by
  induction ls with
  | nil => rfl
  | cons x xs ih =>
    rw [List.any_cons, List.filter_cons]
    by_cases hpx : strStartsWith x.id (name ++ "-") = true
    · rw [if_pos hpx, List.any_cons, ih]
    · rw [if_neg hpx]
      have hx : (decide (x.id = p)) = false := by
        apply decide_eq_false
        intro he
        rw [he] at hpx
        exact hpx hp
      rw [hx, ih]
      simp

theorem getLayerB_congr (m m' : MapState) (name p : String)
    (hR : prefLayers m name = prefLayers m' name)
    (hp : strStartsWith p (name ++ "-") = true) :
    getLayerB m p = getLayerB m' p := by
  unfold getLayerB
  rw [any_id_filter m.layers name p hp, any_id_filter m'.layers name p hp]
  unfold prefLayers at hR
  rw [hR]

theorem filter_insertBeforeId (p : MapLayer → Bool) (ls : List MapLayer) (bid : String)
    (l : MapLayer) (hl : p l = false) :
    (insertBeforeId ls bid l).filter p = ls.filter p := by
  induction ls with
  | nil => simp [insertBeforeId, List.filter_cons, hl]
  | cons x xs ih =>
    unfold insertBeforeId
    by_cases hx : x.id = bid
    · rw [if_pos hx]
      simp [List.filter_cons, hl]
    · rw [if_neg hx]
      simp [List.filter_cons, ih]

theorem prefLayers_addLayerAt_unpref (m : MapState) (l : MapLayer) (before : Option String)
    (name : String) (hl : strStartsWith l.id (name ++ "-") = false) :
    prefLayers (addLayerAt m l before) name = prefLayers m name := by
  unfold addLayerAt
  by_cases hp : getLayerB m l.id
  · rw [if_pos hp]
  · rw [if_neg hp]
    cases before with
    | none =>
      unfold prefLayers
      simp [List.filter_append, List.filter_cons, hl]
    | some bid =>
      unfold prefLayers
      exact filter_insertBeforeId _ m.layers bid l hl

theorem prefLayers_addLayerAt_pref_congr (m m' : MapState) (l : MapLayer) (name : String)
    (hR : prefLayers m name = prefLayers m' name)
    (hl : strStartsWith l.id (name ++ "-") = true) :
    prefLayers (addLayerAt m l none) name = prefLayers (addLayerAt m' l none) name := by
  have hg : getLayerB m l.id = getLayerB m' l.id := getLayerB_congr m m' name l.id hR hl
  unfold addLayerAt
  by_cases hp : getLayerB m l.id
  · have hp' : getLayerB m' l.id = true := by rw [← hg]; exact hp
    rw [if_pos hp, if_pos hp']
    exact hR
  · have hp' : ¬ getLayerB m' l.id = true := by rw [← hg]; exact hp
    rw [if_neg hp, if_neg hp']
    unfold prefLayers
    simp only [List.filter_append, List.filter_cons, hl]
    unfold prefLayers at hR
    rw [hR]

theorem bgStep_prefLayers (m : MapState) (name : String) :
    prefLayers (bgStep m) name = prefLayers m name := by
  unfold bgStep
  by_cases hbg : getLayerB m "background"
  · rw [if_pos hbg]
  · rw [if_neg hbg]
    exact prefLayers_addLayerAt_unpref m _ _ name (background_not_marker name)

theorem debugStep_congr (polyL lineL : Option String) (sid name : String)
    (m m' : MapState) (i : String)
    (hR : prefLayers m name = prefLayers m' name) :
    prefLayers (debugStep polyL lineL sid name m i) name =
      prefLayers (debugStep polyL lineL sid name m' i) name := by
  have hid := marker_debug name i
  have hg : getLayerB m (name ++ "-debug-" ++ i) = getLayerB m' (name ++ "-debug-" ++ i) :=
    getLayerB_congr m m' name _ hR hid
  unfold debugStep
  by_cases h1 : getLayerB m (name ++ "-debug-" ++ i)
  · have h1' : getLayerB m' (name ++ "-debug-" ++ i) = true := by rw [← hg]; exact h1
    rw [if_pos h1, if_pos h1']
    exact hR
  · have h1' : ¬ getLayerB m' (name ++ "-debug-" ++ i) = true := by rw [← hg]; exact h1
    rw [if_neg h1, if_neg h1']
    by_cases h2 : polyL = some i ∨ lineL = some i
    · rw [if_pos h2, if_pos h2]
      exact hR
    · rw [if_neg h2, if_neg h2]
      exact prefLayers_addLayerAt_pref_congr m m' _ name hR hid

theorem customStep_congr (sid name : String) (m m' : MapState) (l : MapLayer)
    (hR : prefLayers m name = prefLayers m' name) :
    prefLayers (addLayerAt m (customTransform sid name l) none) name =
      prefLayers (addLayerAt m' (customTransform sid name l) none) name := by
  by_cases hl : strStartsWith (customTransform sid name l).id (name ++ "-") = true
  · exact prefLayers_addLayerAt_pref_congr m m' _ name hR hl
  · have hl' : strStartsWith (customTransform sid name l).id (name ++ "-") = false :=
      Bool.eq_false_iff.mpr hl
    rw [prefLayers_addLayerAt_unpref m _ none name hl',
      prefLayers_addLayerAt_unpref m' _ none name hl']
    exact hR

theorem foldl_prefLayers_congr (name : String) {α : Type} (f : MapState → α → MapState)
    (hf : ∀ m m' a, prefLayers m name = prefLayers m' name →
      prefLayers (f m a) name = prefLayers (f m' a) name) :
    ∀ (l : List α) (m m' : MapState), prefLayers m name = prefLayers m' name →
      prefLayers (l.foldl f m) name = prefLayers (l.foldl f m') name := by
  intro l
  induction l with
  | nil => intro m m' h; exact h
  | cons a t ih =>
    intro m m' h
    rw [List.foldl_cons, List.foldl_cons]
    exact ih _ _ (hf _ _ _ h)

theorem addCustomStyleLayers_congr (m m' : MapState) (ls : List MapLayer) (sid name : String)
    (hR : prefLayers m name = prefLayers m' name) :
    prefLayers (addCustomStyleLayers m ls sid name) name =
      prefLayers (addCustomStyleLayers m' ls sid name) name :=
  foldl_prefLayers_congr name _ (fun a b c h => customStep_congr sid name a b c h) ls m m' hR

theorem addVectorLayers_congr (m m' : MapState) (vls : List String) (sid name : String)
    (hR : prefLayers m name = prefLayers m' name) :
    prefLayers (addVectorLayers m vls sid name) name =
      prefLayers (addVectorLayers m' vls sid name) name := by
  simp only [addVectorLayers]
  have hbg : prefLayers (bgStep m) name = prefLayers (bgStep m') name := by
    rw [bgStep_prefLayers, bgStep_prefLayers]
    exact hR
  by_cases hv : 0 < vls.length
  · rw [if_pos hv, if_pos hv]
    apply foldl_prefLayers_congr name _ (fun a b c h => debugStep_congr _ _ sid name a b c h)
    cases vls.find? (fun i => polyIds.contains i) with
    | none =>
      cases vls.find? (fun i => lineIds.contains i) with
      | none => exact hbg
      | some _ => exact prefLayers_addLayerAt_pref_congr _ _ _ name hbg (marker_line name)
    | some _ =>
      have h₂ := prefLayers_addLayerAt_pref_congr (bgStep m) (bgStep m')
        ⟨name ++ "-fill", "fill", some sid⟩ name hbg (marker_fill name)
      cases vls.find? (fun i => lineIds.contains i) with
      | none => exact h₂
      | some _ => exact prefLayers_addLayerAt_pref_congr _ _ _ name h₂ (marker_line name)
  · rw [if_neg hv, if_neg hv]
    exact prefLayers_addLayerAt_pref_congr _ _ _ name hbg (marker_fallback name)

theorem prefLayers_cleanup (m : MapState) (name : String) :
    prefLayers (cleanup m name) name = [] := by
  unfold prefLayers cleanup
  rw [List.filter_filter, List.filter_eq_nil_iff]
  intro l _
  cases hsw : strStartsWith l.id (name ++ "-") <;> simp [hsw]

theorem prefLayers_addSource (m : MapState) (sid name : String) :
    prefLayers (addSource m sid) name = prefLayers m name := by
  unfold prefLayers
  rw [addSource_layers]

theorem loadMap_prefLayers_eq (m m' : MapState) (name : String) (blob : Blob)
    (gh : Blob → Header) (gm : Blob → Option Metadata)
    (st : Option (Option (List MapLayer))) :
    prefLayers (loadMap m name (some blob) gh gm st) name =
      prefLayers (loadMap m' name (some blob) gh gm st) name := by
  simp only [loadMap]
  have hR : prefLayers (addSource (cleanup m name) (name ++ "-source")) name =
      prefLayers (addSource (cleanup m' name) (name ++ "-source")) name := by
    rw [prefLayers_addSource, prefLayers_addSource, prefLayers_cleanup, prefLayers_cleanup]
  by_cases hv : (gh blob).tileType = 1
  · rw [if_pos hv, if_pos hv]
    cases st with
    | none => exact addVectorLayers_congr _ _ _ _ _ hR
    | some s =>
      cases s with
      | none => exact addVectorLayers_congr _ _ _ _ _ hR
      | some ls => exact addCustomStyleLayers_congr _ _ _ _ _ hR
  · rw [if_neg hv, if_neg hv]
    exact prefLayers_addLayerAt_pref_congr _ _ _ name hR (marker_raster name)

/-- C10: `loadMap` first removes, via `_cleanup`, every layer whose id
starts with `name ++ "-"` and the source `name ++ "-source"`, then adds the
new source and layers; consequently a second `loadMap` for the same name
leaves exactly one source for that name, keeps the layer ids free of
duplicates, and leaves the set of name-marked layers exactly as after the
first call — reloading is idempotent for that archive's sources and
layers. -/
theorem loadMap_reload_idempotent (m : MapState) (name : String) (blob : Blob)
    (gh : Blob → Header) (gm : Blob → Option Metadata)
    (st : Option (Option (List MapLayer)))
    (hnd : (layerIds m).Nodup) :
    (loadMap (loadMap m name (some blob) gh gm st) name (some blob) gh gm st).sources.count
        (name ++ "-source") = 1 ∧
    (layerIds (loadMap (loadMap m name (some blob) gh gm st) name (some blob) gh gm st)).Nodup ∧
    prefLayers (loadMap (loadMap m name (some blob) gh gm st) name (some blob) gh gm st) name =
      prefLayers (loadMap m name (some blob) gh gm st) name := by
  refine ⟨?_, ?_, ?_⟩
  · rw [loadMap_sources]
    exact count_cleanup_append (loadMap m name (some blob) gh gm st).sources (name ++ "-source")
  · exact loadMap_nodup _ _ _ _ _ _ (loadMap_nodup _ _ _ _ _ _ hnd)
  · exact loadMap_prefLayers_eq _ _ _ _ _ _ _

theorem loadMap_reload_idempotent_witness :
    (loadMap (loadMap ⟨[], []⟩ "m" (some []) (fun _ => ⟨0, 0, 0, 0, 0, 0, 2⟩)
        (fun _ => none) none) "m" (some []) (fun _ => ⟨0, 0, 0, 0, 0, 0, 2⟩)
        (fun _ => none) none).sources.count ("m" ++ "-source") = 1 ∧
    (layerIds (loadMap (loadMap ⟨[], []⟩ "m" (some []) (fun _ => ⟨0, 0, 0, 0, 0, 0, 2⟩)
        (fun _ => none) none) "m" (some []) (fun _ => ⟨0, 0, 0, 0, 0, 0, 2⟩)
        (fun _ => none) none)).Nodup ∧
    prefLayers (loadMap (loadMap ⟨[], []⟩ "m" (some []) (fun _ => ⟨0, 0, 0, 0, 0, 0, 2⟩)
        (fun _ => none) none) "m" (some []) (fun _ => ⟨0, 0, 0, 0, 0, 0, 2⟩)
        (fun _ => none) none) "m" =
      prefLayers (loadMap ⟨[], []⟩ "m" (some []) (fun _ => ⟨0, 0, 0, 0, 0, 0, 2⟩)
        (fun _ => none) none) "m" :=
  loadMap_reload_idempotent ⟨[], []⟩ "m" [] (fun _ => ⟨0, 0, 0, 0, 0, 0, 2⟩)
    (fun _ => none) none (by decide)

end OfflinePmtiles
